import Mathlib

/-!
Shallow embedding of the nr-mcp core subsystem: the table-schema cache
(`NewRelicSchemaService`), the NRQL prefetcher (`NewRelicNrqlService`),
the event bus (`EventBus`), the buffered MCP logger strategy
(`McpLoggerStrategy`) and the stdio transport (`StdioTransport`).

JavaScript `Map<string, V>` is embedded as an association list with
`Map.set` / `Map.get` / `Map.delete` semantics (insertion order preserved,
set overwrites in place, new keys are appended).  Timestamps (`Date.now()`)
are `Nat` milliseconds passed explicitly; each method call is atomic at one
instant.  A remote NRQL execution is embedded by passing its outcome
(`Except Err ...`) as an argument.  Errors are abstracted as strings.
-/

abbrev Err := String

/-- Association-list embedding of JavaScript `Map.get`. -/
def mapLookup {V : Type} (k : String) : List (String × V) → Option V
  | [] => none
  | (k', v) :: rest => if k' = k then some v else mapLookup k rest

/-- Association-list embedding of JavaScript `Map.set`: overwrite in place,
append when the key is new. -/
def mapSet {V : Type} (k : String) (v : V) : List (String × V) → List (String × V)
  | [] => [(k, v)]
  | (k', v') :: rest => if k' = k then (k, v) :: rest else (k', v') :: mapSet k v rest

/-- Association-list embedding of JavaScript `Map.delete`. -/
def mapDelete {V : Type} (k : String) : List (String × V) → List (String × V)
  | [] => []
  | (k', v') :: rest => if k' = k then rest else (k', v') :: mapDelete k rest

/-! ## Event bus (`src/utils/event-bus.ts`) -/

/-- `EventType.SCHEMA_UPDATED` from `event-bus.ts`. -/
def SCHEMA_UPDATED : String := "schema/updated"

/-- State of `EventBus`: `subscribers : Map<string, Set<EventHandler>>`.
Handlers are embedded as identifiers (`Nat`); a `Set` is a duplicate-free
list in insertion order. -/
structure EventBusState where
  subscribers : List (String × List Nat)
  deriving Repr, DecidableEq

def emptyEventBus : EventBusState := ⟨[]⟩

/-- `EventBus.subscribe(eventPrefix, handler)`: create the handler set on
first use, then `Set.add` the handler (a no-op when already present). -/
def subscribe (bus : EventBusState) (pfx : String) (h : Nat) : EventBusState :=
  match mapLookup pfx bus.subscribers with
  | some hs => ⟨mapSet pfx (if h ∈ hs then hs else hs ++ [h]) bus.subscribers⟩
  | none => ⟨mapSet pfx [h] bus.subscribers⟩

/-- JavaScript `s.startsWith(pfx)`: plain character-wise prefix test. -/
def strStartsWith (s pfx : String) : Bool := pfx.data.isPrefixOf s.data

/-- The subscriptions a `publish(type, data)` call delivers to: the loop in
`EventBus.publish` visits every `(prefix, handlers)` entry with
`type.startsWith(prefix)`. -/
def matchingSubscriptions (bus : EventBusState) (topic : String) :
    List (String × List Nat) :=
  bus.subscribers.filter (fun pr => strStartsWith topic pr.1)

/-- `EventBus.publish(type, data)` observed through the handlers it invokes
(in iteration order).  A handler that throws is caught inside the loop, so
every matching handler is invoked regardless of the others. -/
def publish (bus : EventBusState) (topic : String) : List Nat :=
  (matchingSubscriptions bus topic).flatMap (fun pr => pr.2)

/-! ## Schema cache (`src/services/new-relic-schema-service.ts`) -/

/-- `CACHE_EXPIRATION_MS = 24 * 60 * 60 * 1000` (24 hours). -/
def CACHE_EXPIRATION_MS : Nat := 24 * 60 * 60 * 1000

/-- `TableSchemaCache` cache entry. -/
structure TableSchemaCache where
  tableName : String
  schema : List String
  timestamp : Nat
  expiresAt : Nat
  deriving Repr, DecidableEq

/-- State of `NewRelicSchemaService`: the `schemaCache` map plus the log of
`eventBus.publish(topic, payload)` calls made so far (in order). -/
structure SchemaServiceState where
  schemaCache : List (String × TableSchemaCache)
  events : List (String × String)
  deriving Repr, DecidableEq

def initSchemaServiceState : SchemaServiceState := ⟨[], []⟩

/-- Record an `eventBus.publish(topic, payload)` call made by the schema
service or the prefetcher. -/
def publishEvent (s : SchemaServiceState) (topic payload : String) :
    SchemaServiceState :=
  { s with events := s.events ++ [(topic, payload)] }

/-- `NewRelicSchemaService.cacheTableSchema(tableName, schema)`: build an
entry with `timestamp = now` and `expiresAt = now + CACHE_EXPIRATION_MS`
and `Map.set` it.  The method logs but performs no publish. -/
def cacheTableSchema (s : SchemaServiceState) (tableName : String)
    (schema : List String) (now : Nat) : SchemaServiceState :=
  { s with
    schemaCache :=
      mapSet tableName
        ⟨tableName, schema, now, now + CACHE_EXPIRATION_MS⟩ s.schemaCache }

/-- `NewRelicSchemaService.isTableSchemaCached(tableName)`:
`!!cachedSchema && Date.now() < cachedSchema.expiresAt`. -/
def isTableSchemaCached (s : SchemaServiceState) (tableName : String)
    (now : Nat) : Bool :=
  match mapLookup tableName s.schemaCache with
  | some e => now < e.expiresAt
  | none => false

/-- One row of an NRQL result, keeping only the `keyset` field used by the
schema code. -/
structure NrqlRow where
  keyset : Option (List String)
  deriving Repr, DecidableEq

/-- The keyset extraction in `fetchTableSchema` and
`checkAndCacheTableSchema`: `result.results.length > 0 &&
result.results[0].keyset` guards returning `results[0].keyset`, otherwise
the empty list. -/
def keysetOfRows : List NrqlRow → List String
  | [] => []
  | r :: _ => match r.keyset with
    | some ks => ks
    | none => []

/-- `NewRelicSchemaService.fetchTableSchema(tableName)`, parameterised by
the outcome of the remote `SELECT keyset() FROM t LIMIT 1` query: a failed
execution rethrows, a successful one yields the first row's keyset (or
`[]`). -/
def fetchTableSchema (res : Except Err (List NrqlRow)) :
    Except Err (List String) :=
  match res with
  | .error e => .error e
  | .ok rows => .ok (keysetOfRows rows)

/-- The remote path of `getTableSchema`: fetch, cache, publish
`SCHEMA_UPDATED`.  The returned `Bool` records that a remote fetch was
issued. -/
def getTableSchemaFetchPath (s : SchemaServiceState) (tableName : String)
    (now : Nat) (fetchRes : Except Err (List NrqlRow)) :
    Except Err (List String) × SchemaServiceState × Bool :=
  match fetchTableSchema fetchRes with
  | .error e => (.error e, s, true)
  | .ok schema =>
      let s1 := cacheTableSchema s tableName schema now
      let s2 := publishEvent s1 SCHEMA_UPDATED tableName
      (.ok schema, s2, true)

/-- `NewRelicSchemaService.getTableSchema(tableName)`: return the cached
schema when the entry exists and `now < expiresAt`; otherwise fetch, cache
and publish.  The `Bool` is `true` iff a remote fetch was issued. -/
def getTableSchema (s : SchemaServiceState) (tableName : String) (now : Nat)
    (fetchRes : Except Err (List NrqlRow)) :
    Except Err (List String) × SchemaServiceState × Bool :=
  match mapLookup tableName s.schemaCache with
  | some e =>
      if now < e.expiresAt then (.ok e.schema, s, false)
      else getTableSchemaFetchPath s tableName now fetchRes
  | none => getTableSchemaFetchPath s tableName now fetchRes

/-- `NewRelicSchemaService.clearTableSchemaCache(tableName)`: only when
`schemaCache.has(tableName)` delete the entry and publish
`SCHEMA_UPDATED`. -/
def clearTableSchemaCache (s : SchemaServiceState) (tableName : String) :
    SchemaServiceState :=
  if (mapLookup tableName s.schemaCache).isSome then
    publishEvent { s with schemaCache := mapDelete tableName s.schemaCache }
      SCHEMA_UPDATED tableName
  else s

/-! ### Association-list lemmas -/

theorem mapLookup_mapSet_self {V : Type} (k : String) (v : V)
    (l : List (String × V)) : mapLookup k (mapSet k v l) = some v := by
  induction l with
  | nil => simp [mapSet, mapLookup]
  | cons hd tl ih =>
      obtain ⟨k', v'⟩ := hd
      by_cases h : k' = k
      · simp [mapSet, mapLookup, h]
      · simp [mapSet, mapLookup, h, ih]

theorem mapLookup_mapSet_ne {V : Type} (k k' : String) (v : V)
    (l : List (String × V)) (h : k' ≠ k) :
    mapLookup k' (mapSet k v l) = mapLookup k' l := by
  have hne : ¬ (k = k') := fun hh => h hh.symm
  induction l with
  | nil => simp [mapSet, mapLookup, hne]
  | cons hd tl ih =>
      obtain ⟨k'', v''⟩ := hd
      by_cases hk : k'' = k
      · subst hk
        simp [mapSet, mapLookup, hne]
      · by_cases hk' : k'' = k'
        · subst hk'
          simp [mapSet, mapLookup, hk, hne, h]
        · simp [mapSet, mapLookup, hk, hk', ih]

/-! ## Prefetcher (`src/services/new-relic-nrql-service.ts`) -/

/-- JavaScript `\w` = `[A-Za-z0-9_]`, the identifier class of the regex. -/
def isWordChar (c : Char) : Bool := c.isAlpha || c.isDigit || c = '_'

/-- ASCII fragment of JavaScript `\s`; the queries embedded here use only
these whitespace characters. -/
def isSpaceChar (c : Char) : Bool :=
  c = ' ' || c = '\t' || c = '\n' || c = '\r'

/-- Attempt the regex `\bFROM\s+([A-Za-z0-9_]+)` at the head of `cs`, the
word-boundary before `F` having been checked by the caller.  On success
return the captured identifier and the remaining characters.  `\s+` and the
capture are maximal-munch; since `\s` and `\w` are disjoint no backtracking
can occur. -/
def matchFromAt (cs : List Char) : Option (List Char × List Char) :=
  match cs with
  | c1 :: c2 :: c3 :: c4 :: rest =>
      if c1.toLower = 'f' && c2.toLower = 'r' && c3.toLower = 'o'
          && c4.toLower = 'm' then
        let sp := rest.takeWhile isSpaceChar
        let rest2 := rest.dropWhile isSpaceChar
        if sp.isEmpty then none
        else
          let ident := rest2.takeWhile isWordChar
          let rest3 := rest2.dropWhile isWordChar
          if ident.isEmpty then none else some (ident, rest3)
      else none
  | _ => none

/-- The scan loop of `query.matchAll(/\bFROM\s+([A-Za-z0-9_]+)/gi)`:
advance one character at a time; at a word boundary (`prevIsWord = false`)
try the pattern; after a match resume just past the captured identifier
(whose last character is a word character).  `fuel` bounds the number of
steps by the input length; every step consumes at least one character, so
the fuel never runs out on a full run. -/
def scanFromMatches : Nat → List Char → Bool → List (List Char)
  | 0, _, _ => []
  | _ + 1, [], _ => []
  | fuel + 1, c :: rest, prevIsWord =>
      if prevIsWord then scanFromMatches fuel rest (isWordChar c)
      else
        match matchFromAt (c :: rest) with
        | some (ident, rest3) => ident :: scanFromMatches fuel rest3 true
        | none => scanFromMatches fuel rest (isWordChar c)

/-- The deduplication `filter((value, index, self) => self.indexOf(value)
=== index)`: keep the first occurrence of each name, preserving order. -/
def dedupFirstAux (seen : List String) : List String → List String
  | [] => []
  | x :: xs =>
      if x ∈ seen then dedupFirstAux seen xs
      else x :: dedupFirstAux (x :: seen) xs

/-- `NewRelicNrqlService.extractTableNamesFromQuery(query)`: all matches of
`/\bFROM\s+([A-Za-z0-9_]+)/gi`, first occurrences only. -/
def extractTableNamesFromQuery (query : String) : List String :=
  dedupFirstAux []
    ((scanFromMatches query.toList.length query.toList false).map
      (fun cs => String.mk cs))

/-- The body of the per-table loop in
`NewRelicNrqlService.checkAndCacheTableSchema`: skip a freshly cached
table; otherwise issue the `SELECT keyset() FROM t LIMIT 1` query (whose
outcome `fetch t` is passed in); on success with a present `keyset` cache
it via `cacheTableSchema` and publish `SCHEMA_UPDATED`; any error is
caught and logged so processing continues.  The `Bool` is `true` iff a
remote lookup was issued for this table. -/
def checkOneTable (fetch : String → Except Err (List NrqlRow)) (now : Nat)
    (s : SchemaServiceState) (t : String) : SchemaServiceState × Bool :=
  if isTableSchemaCached s t now then (s, false)
  else
    match fetch t with
    | .error _ => (s, true)
    | .ok rows =>
        match rows with
        | [] => (s, true)
        | r :: _ =>
            match r.keyset with
            | none => (s, true)
            | some ks =>
                (publishEvent (cacheTableSchema s t ks now)
                  SCHEMA_UPDATED t, true)

/-- The `for (const tableName of tableNames)` loop of
`checkAndCacheTableSchema`, also collecting (in order) the tables for
which a remote lookup was issued. -/
def checkTables (fetch : String → Except Err (List NrqlRow)) (now : Nat) :
    SchemaServiceState → List String → SchemaServiceState × List String
  | s, [] => (s, [])
  | s, t :: ts =>
      let r1 := checkOneTable fetch now s t
      let r2 := checkTables fetch now r1.1 ts
      (r2.1, (if r1.2 then [t] else []) ++ r2.2)

/-- `NewRelicNrqlService.checkAndCacheTableSchema(query)`: extract the
distinct table names and process each in turn.  Both the outer and the
per-table `try/catch` swallow errors, so the function is total and never
propagates a failure to the caller's query. -/
def checkAndCacheTableSchema (fetch : String → Except Err (List NrqlRow))
    (s : SchemaServiceState) (query : String) (now : Nat) :
    SchemaServiceState × List String :=
  checkTables fetch now s (extractTableNamesFromQuery query)

/-! ## Buffered MCP logger (`src/utils/logger/strategies/mcp-logger-strategy.ts`) -/

/-- `MAX_BUFFER_SIZE = 4 * 1024 * 1024` (4MB in bytes). -/
def MAX_BUFFER_SIZE : Nat := 4 * 1024 * 1024

/-- A buffered log entry.  `args` is restricted to plain strings (no
escape-needing characters), which is all the size model needs. -/
structure BufferedLogEntry where
  level : String
  message : String
  args : List String
  timestamp : String
  deriving Repr, DecidableEq

/-- Length of `JSON.stringify(args)` for a list of escape-free strings:
two brackets, two quotes around each string, a comma between adjacent
elements. -/
def jsonArgsLen (args : List String) : Nat :=
  2 + (args.map (fun a => a.length + 2)).sum + (args.length - 1)

/-- `McpLoggerStrategy.calculateLogSize(log)`: level + message + timestamp
lengths, plus the serialized `args` when non-empty. -/
def calculateLogSize (e : BufferedLogEntry) : Nat :=
  e.level.length + e.message.length + e.timestamp.length +
    (if e.args.isEmpty then 0 else jsonArgsLen e.args)

/-- Outcome of one `server.sendLoggingMessage` call: success, the specific
`"Not connected"` error, or any other thrown error. -/
inductive SendOutcome where
  | ok
  | notConnected
  | failed
  deriving Repr, DecidableEq

/-- A sink (`LoggingMessageSender`) observed through the outcome of each
delivery attempt. -/
def Sink := BufferedLogEntry → SendOutcome

/-- State of `McpLoggerStrategy`: the optional attached server, the
`bufferQueue` and the running `bufferSize`. -/
structure McpLoggerState where
  server : Option Sink
  bufferQueue : List BufferedLogEntry
  bufferSize : Nat

def emptyMcpLoggerState : McpLoggerState := ⟨none, [], 0⟩

/-- The eviction loop of `addToBuffer`: `while (bufferSize + logSize >
MAX_BUFFER_SIZE && bufferQueue.length > 0)` shift the oldest entry and
subtract its size. -/
def evictLoop (logSize : Nat) : List BufferedLogEntry → Nat →
    List BufferedLogEntry × Nat
  | [], size => ([], size)
  | e :: rest, size =>
      if size + logSize > MAX_BUFFER_SIZE then
        evictLoop logSize rest (size - calculateLogSize e)
      else (e :: rest, size)

/-- `McpLoggerStrategy.addToBuffer(logEntry)`: evict oldest entries while
the new entry would overflow, then push it unconditionally. -/
def addToBuffer (s : McpLoggerState) (e : BufferedLogEntry) :
    McpLoggerState :=
  let logSize := calculateLogSize e
  let ev := evictLoop logSize s.bufferQueue s.bufferSize
  { s with bufferQueue := ev.1 ++ [e], bufferSize := ev.2 + logSize }

/-- Log a whole sequence of entries (each one `log` call with no server
attached reduces to `addToBuffer`). -/
def logMany (s : McpLoggerState) (es : List BufferedLogEntry) :
    McpLoggerState :=
  es.foldl addToBuffer s

/-- The `while (bufferQueue.length > 0)` loop of
`McpLoggerStrategy.flushBuffer`: deliver the head; on success shift it and
subtract its size; on `"Not connected"` return, keeping the remaining
entries; on any other error the rethrow reaches the outer catch, which
logs to `console.error` and likewise leaves the entry (never shifted) and
all later entries in the buffer.  The `Bool` records whether the outer
catch logged an error. -/
def flushLoop (send : Sink) : List BufferedLogEntry → Nat →
    List BufferedLogEntry × Nat × Bool
  | [], size => ([], size, false)
  | e :: rest, size =>
      match send e with
      | .ok => flushLoop send rest (size - calculateLogSize e)
      | .notConnected => (e :: rest, size, false)
      | .failed => (e :: rest, size, true)

/-- `McpLoggerStrategy.flushBuffer()`: a no-op without a server or with an
empty buffer, otherwise the flush loop.  The `Bool` records whether a
non-`"Not connected"` delivery error was logged. -/
def flushBuffer (s : McpLoggerState) : McpLoggerState × Bool :=
  match s.server with
  | none => (s, false)
  | some send =>
      if s.bufferQueue.isEmpty then (s, false)
      else
        let r := flushLoop send s.bufferQueue s.bufferSize
        ({ s with bufferQueue := r.1, bufferSize := r.2.1 }, r.2.2)

/-- `McpLoggerStrategy.attachServer(server)`: record the sink, then flush
the buffer. -/
def attachServer (s : McpLoggerState) (send : Sink) :
    McpLoggerState × Bool :=
  flushBuffer { s with server := some send }

/-! ## Stdio transport (`src/stdio-transport.ts`) -/

/-- State of `StdioTransport`: the `_started` flag and the read buffer
contents (raw bytes as a string). -/
structure StdioTransportState where
  started : Bool
  readBuffer : String
  deriving Repr, DecidableEq

/-- The constructor's state: `_started = false`, empty `ReadBuffer`. -/
def initStdioTransport : StdioTransportState := ⟨false, ""⟩

/-- `StdioTransport.start()`: throw `"StdioTransport already started!"`
when `_started`, otherwise set `_started = true` and install the stdin
listeners. -/
def transportStart (s : StdioTransportState) :
    Except Err StdioTransportState :=
  if s.started then .error "StdioTransport already started!"
  else .ok { s with started := true }

/-- `StdioTransport.close()`: remove the listeners and clear the read
buffer; `_started` is left untouched. -/
def transportClose (s : StdioTransportState) : StdioTransportState :=
  { s with readBuffer := "" }

/-- A call in a `start`/`close` call sequence. -/
inductive TransportOp where
  | start
  | close
  deriving Repr, DecidableEq

/-- Apply one call's state effect (a throwing `start` leaves the state
unchanged: the throw happens before any mutation). -/
def runTransportOp (s : StdioTransportState) : TransportOp →
    StdioTransportState
  | .start =>
      match transportStart s with
      | .ok s' => s'
      | .error _ => s
  | .close => transportClose s

/-- Run a call sequence from a given state. -/
def runTransportOps (s : StdioTransportState) (ops : List TransportOp) :
    StdioTransportState :=
  ops.foldl runTransportOp s

/-! ## Bounded-concurrency aggregator
(`NewRelicNrqlService.queryNrqlsByService`) -/

/-- `MAX_CONCURRENCY = 5` in `NewRelicNrqlService`. -/
def MAX_CONCURRENCY : Nat := 5

/-- A dashboard summary (`dashboardsResult.dashboards` element). -/
structure Dashboard where
  guid : String
  name : String
  deriving Repr, DecidableEq

/-- A widget's raw configuration, keeping the `nrqlQueries` array (absent
or not an array becomes `none`). -/
structure DashWidget where
  title : String
  nrqlQueries : Option (List String)
  deriving Repr, DecidableEq

structure DashPage where
  widgets : List DashWidget
  deriving Repr, DecidableEq

structure DashboardDetails where
  guid : String
  name : String
  pages : List DashPage
  deriving Repr, DecidableEq

/-- An extracted NRQL query record (`NrqlQuery` in the source). -/
structure NrqlQueryInfo where
  query : String
  widgetName : String
  dashboardName : String
  dashboardGuid : String
  deriving Repr, DecidableEq

/-- `NewRelicNrqlService.extractNrqlsFromDashboard(dashboardDetails)`:
every page, every widget, every entry of a present `nrqlQueries` array. -/
def extractNrqlsFromDashboard (d : DashboardDetails) : List NrqlQueryInfo :=
  d.pages.flatMap (fun page =>
    page.widgets.flatMap (fun w =>
      match w.nrqlQueries with
      | some qs => qs.map (fun q => ⟨q, w.title, d.name, d.guid⟩)
      | none => []))

/-- The per-dashboard task passed to the pool in `queryNrqlsByService`:
fetch the details (outcome passed in via `getDetails`) and extract its
NRQLs; the `try/catch` turns any failure into an empty result, so a
failing item neither aborts the batch nor loses its slot. -/
def processDashboard (getDetails : Dashboard → Except Err DashboardDetails)
    (d : Dashboard) : List NrqlQueryInfo :=
  match getDetails d with
  | .ok det => extractNrqlsFromDashboard det
  | .error _ => []

/-- The fan-in of `queryNrqlsByService`: one result list per input
dashboard, flattened. -/
def queryNrqlsByServiceQueries
    (getDetails : Dashboard → Except Err DashboardDetails)
    (dashboards : List Dashboard) : List NrqlQueryInfo :=
  (dashboards.map (processDashboard getDetails)).flatten

/-- Modelled from the spec: the scheduler of the external
`@supercharge/promise-pool` library (its source is not part of this
repository).  The spec's contract: "for input sequence of length N and
concurrency limit K, at most K tasks execute concurrently; every input is
processed exactly once; successes and failures are both collected (no task
failure aborts the batch)"; "tasks are started in input order but may
complete out of order".  A scheduler state holds the not-yet-started
inputs in order, the multiset of in-flight tasks and the multiset of
finished tasks. -/
structure PoolState (α : Type) where
  pending : List α
  inFlight : Multiset α
  finished : Multiset α

/-- Modelled from the spec: one scheduler transition — start the next
pending task when fewer than `K` are in flight, or finish any in-flight
task (completion order is unconstrained; a task's failure is just a
result, so finishing is the same step either way). -/
inductive PoolStep (K : Nat) {α : Type} [DecidableEq α] :
    PoolState α → PoolState α → Prop where
  | start (x : α) (rest : List α) (inF fin : Multiset α)
      (h : Multiset.card inF < K) :
      PoolStep K ⟨x :: rest, inF, fin⟩ ⟨rest, x ::ₘ inF, fin⟩
  | finish (x : α) (pend : List α) (inF fin : Multiset α) (h : x ∈ inF) :
      PoolStep K ⟨pend, inF, fin⟩ ⟨pend, inF.erase x, x ::ₘ fin⟩

/-- The scheduler states reachable while processing `items` with
concurrency limit `K`. -/
def PoolReachable (K : Nat) {α : Type} [DecidableEq α] (items : List α)
    (s : PoolState α) : Prop :=
  Relation.ReflTransGen (PoolStep K) ⟨items, 0, 0⟩ s

/-- A finished pool run: nothing pending, nothing in flight. -/
def PoolDone {α : Type} (s : PoolState α) : Prop :=
  s.pending = [] ∧ s.inFlight = 0

/-! ## Schema-cache lemmas -/

theorem getTableSchema_miss (s : SchemaServiceState) (t : String) (now : Nat)
    (fr : Except Err (List NrqlRow))
    (hmiss : isTableSchemaCached s t now = false) :
    getTableSchema s t now fr = getTableSchemaFetchPath s t now fr := by
  unfold isTableSchemaCached at hmiss
  unfold getTableSchema
  cases hlook : mapLookup t s.schemaCache with
  | none => simp
  | some e =>
      rw [hlook] at hmiss
      simp only [decide_eq_false_iff_not] at hmiss
      simp [hmiss]

theorem getTableSchemaFetchPath_ok (s : SchemaServiceState) (t : String)
    (now : Nat) (rows : List NrqlRow) :
    getTableSchemaFetchPath s t now (.ok rows) =
      (.ok (keysetOfRows rows),
        publishEvent (cacheTableSchema s t (keysetOfRows rows) now)
          SCHEMA_UPDATED t, true) := by
  simp [getTableSchemaFetchPath, fetchTableSchema]

theorem cacheTableSchema_lookup_self (s : SchemaServiceState) (t : String)
    (cols : List String) (now : Nat) :
    mapLookup t (cacheTableSchema s t cols now).schemaCache =
      some ⟨t, cols, now, now + CACHE_EXPIRATION_MS⟩ := by
  simp [cacheTableSchema, mapLookup_mapSet_self]

/-- Claim C1: a second `getTableSchema(T)` call strictly before the
`expiresAt` written by a first (fetching) call returns the cached columns
with no remote fetch; a second call at or after `expiresAt` issues a
second remote fetch. -/
theorem getTableSchema_ttl (s : SchemaServiceState) (t : String)
    (t0 t1 : Nat) (rows : List NrqlRow) (f2 : Except Err (List NrqlRow))
    (hmiss : isTableSchemaCached s t t0 = false) :
    (getTableSchema s t t0 (.ok rows)).2.2 = true ∧
    (t1 < t0 + CACHE_EXPIRATION_MS →
      getTableSchema (getTableSchema s t t0 (.ok rows)).2.1 t t1 f2 =
        (.ok (keysetOfRows rows),
          (getTableSchema s t t0 (.ok rows)).2.1, false)) ∧
    (t0 + CACHE_EXPIRATION_MS ≤ t1 →
      (getTableSchema (getTableSchema s t t0 (.ok rows)).2.1 t t1 f2).2.2 =
        true) := by
  rw [getTableSchema_miss s t t0 _ hmiss, getTableSchemaFetchPath_ok]
  have hlook : mapLookup t
      (publishEvent (cacheTableSchema s t (keysetOfRows rows) t0)
        SCHEMA_UPDATED t).schemaCache =
      some ⟨t, keysetOfRows rows, t0, t0 + CACHE_EXPIRATION_MS⟩ := by
    simp [publishEvent, cacheTableSchema_lookup_self]
  refine ⟨rfl, ?_, ?_⟩
  · intro hfresh
    simp [getTableSchema, hlook, hfresh]
  · intro hstale
    have hnot : ¬ (t1 < t0 + CACHE_EXPIRATION_MS) := by omega
    simp [getTableSchema, hlook, hnot, getTableSchemaFetchPath]
    cases f2 with
    | error e => simp [fetchTableSchema]
    | ok rows2 => simp [fetchTableSchema]

theorem getTableSchema_ttl_witness :
    isTableSchemaCached initSchemaServiceState "Events" 0 = false ∧
    ((getTableSchema initSchemaServiceState "Events" 0
        (.ok [⟨some ["ts", "level", "msg"]⟩])).2.2 = true ∧
      ((1 : Nat) < 0 + CACHE_EXPIRATION_MS →
        getTableSchema
            (getTableSchema initSchemaServiceState "Events" 0
              (.ok [⟨some ["ts", "level", "msg"]⟩])).2.1 "Events" 1
            (.ok []) =
          (.ok (keysetOfRows [⟨some ["ts", "level", "msg"]⟩]),
            (getTableSchema initSchemaServiceState "Events" 0
              (.ok [⟨some ["ts", "level", "msg"]⟩])).2.1, false)) ∧
      (0 + CACHE_EXPIRATION_MS ≤ 1 →
        (getTableSchema
            (getTableSchema initSchemaServiceState "Events" 0
              (.ok [⟨some ["ts", "level", "msg"]⟩])).2.1 "Events" 1
            (.ok [])).2.2 = true)) :=
  ⟨by decide,
    getTableSchema_ttl initSchemaServiceState "Events" 0 1
      [⟨some ["ts", "level", "msg"]⟩] (.ok []) (by decide)⟩

/-- Claim C2 counterexample: `cacheTableSchema` itself publishes no
`SCHEMA_UPDATED` event — starting from the empty service state, after
`cacheTableSchema("Events", ["ts"])` the publish log is still empty. -/
theorem cacheTableSchema_publish_counterexample :
    ¬ ((SCHEMA_UPDATED, "Events") ∈
      (cacheTableSchema initSchemaServiceState "Events" ["ts"] 0).events) := by
  decide

/-- Claim C2 (amended): `cacheTableSchema(tableName, columns)`
unconditionally overwrites the entry for that table with a fresh
`CACHE_EXPIRATION_MS` (24h) TTL window, but itself publishes nothing: the
`SCHEMA_UPDATED` publish is done by its callers.  In particular the
prefetcher path caches then publishes, so after it the event log has
grown by exactly that event. -/
theorem cacheTableSchema_overwrite (s : SchemaServiceState) (t : String)
    (cols : List String) (now : Nat) :
    mapLookup t (cacheTableSchema s t cols now).schemaCache =
      some ⟨t, cols, now, now + CACHE_EXPIRATION_MS⟩ ∧
    (cacheTableSchema s t cols now).events = s.events ∧
    (publishEvent (cacheTableSchema s t cols now) SCHEMA_UPDATED t).events =
      s.events ++ [(SCHEMA_UPDATED, t)] := by
  refine ⟨cacheTableSchema_lookup_self s t cols now, rfl, ?_⟩
  simp [publishEvent, cacheTableSchema]

/-- Claim C5: when the remote fetch of a cache miss fails, the error
propagates to the caller of `getTableSchema` and the whole state (cache
and publish log) is left unchanged: no entry written, no event
published, no retry. -/
theorem getTableSchema_fetch_error (s : SchemaServiceState) (t : String)
    (now : Nat) (err : Err)
    (hmiss : isTableSchemaCached s t now = false) :
    getTableSchema s t now (.error err) = (.error err, s, true) := by
  rw [getTableSchema_miss s t now _ hmiss]
  simp [getTableSchemaFetchPath, fetchTableSchema]

theorem getTableSchema_fetch_error_witness :
    isTableSchemaCached initSchemaServiceState "Events" 0 = false ∧
    getTableSchema initSchemaServiceState "Events" 0 (.error "boom") =
      (.error "boom", initSchemaServiceState, true) :=
  ⟨by decide,
    getTableSchema_fetch_error initSchemaServiceState "Events" 0 "boom"
      (by decide)⟩

/-- Claim C10: evicting an absent table is a complete no-op —
`clearTableSchemaCache` on a table with no entry returns the state
unchanged (every cache entry kept, no event published). -/
theorem clearTableSchemaCache_absent (s : SchemaServiceState) (t : String)
    (habs : mapLookup t s.schemaCache = none) :
    clearTableSchemaCache s t = s := by
  simp [clearTableSchemaCache, habs]

theorem clearTableSchemaCache_absent_witness :
    mapLookup "Events" initSchemaServiceState.schemaCache = none ∧
    clearTableSchemaCache initSchemaServiceState "Events" =
      initSchemaServiceState :=
  ⟨by decide,
    clearTableSchemaCache_absent initSchemaServiceState "Events" (by decide)⟩

/-! ## Event-bus delivery (claim C6) -/

/-- Claim C6: a publish under `topic` is delivered to a registered
subscription exactly when the topic starts with the subscription's prefix
(plain string prefix); a handler is invoked exactly when it belongs to
some matching subscription.  Concretely, a handler subscribed to `"a/"`
receives `"a/1"` and `"a/2"` and never `"b/x"`. -/
theorem eventBus_prefix_delivery (bus : EventBusState) (topic p : String)
    (hs : List Nat) (hmem : (p, hs) ∈ bus.subscribers) :
    ((p, hs) ∈ matchingSubscriptions bus topic ↔
      strStartsWith topic p = true) ∧
    (∀ h : Nat, h ∈ publish bus topic ↔
      ∃ pr : String × List Nat, pr ∈ bus.subscribers ∧
        strStartsWith topic pr.1 = true ∧ h ∈ pr.2) ∧
    publish (subscribe emptyEventBus "a/" 7) "a/1" = [7] ∧
    publish (subscribe emptyEventBus "a/" 7) "a/2" = [7] ∧
    publish (subscribe emptyEventBus "a/" 7) "b/x" = [] := by
  refine ⟨?_, ?_, by decide, by decide, by decide⟩
  · simp [matchingSubscriptions, List.mem_filter, hmem]
  · intro h
    simp only [publish, matchingSubscriptions, List.mem_flatMap,
      List.mem_filter]
    constructor
    · rintro ⟨pr, ⟨hpr, hpfx⟩, hh⟩
      exact ⟨pr, hpr, hpfx, hh⟩
    · rintro ⟨pr, hpr, hpfx, hh⟩
      exact ⟨pr, ⟨hpr, hpfx⟩, hh⟩

theorem eventBus_prefix_delivery_witness :
    ("a/", [7]) ∈ (subscribe emptyEventBus "a/" 7).subscribers ∧
    ((("a/", [7]) ∈
        matchingSubscriptions (subscribe emptyEventBus "a/" 7) "a/1" ↔
      strStartsWith "a/1" "a/" = true) ∧
    (∀ h : Nat, h ∈ publish (subscribe emptyEventBus "a/" 7) "a/1" ↔
      ∃ pr : String × List Nat,
        pr ∈ (subscribe emptyEventBus "a/" 7).subscribers ∧
        strStartsWith "a/1" pr.1 = true ∧ h ∈ pr.2) ∧
    publish (subscribe emptyEventBus "a/" 7) "a/1" = [7] ∧
    publish (subscribe emptyEventBus "a/" 7) "a/2" = [7] ∧
    publish (subscribe emptyEventBus "a/" 7) "b/x" = []) :=
  ⟨by decide,
    eventBus_prefix_delivery (subscribe emptyEventBus "a/" 7) "a/1" "a/"
      [7] (by decide)⟩

/-! ## Transport start-twice (claim C9) -/

theorem runTransportOp_started (s : StdioTransportState) (op : TransportOp)
    (h : s.started = true) : (runTransportOp s op).started = true := by
  cases op with
  | start => simp [runTransportOp, transportStart, h]
  | close => simpa [runTransportOp, transportClose] using h

theorem runTransportOps_started (ops : List TransportOp) :
    ∀ s : StdioTransportState, s.started = true →
      (runTransportOps s ops).started = true := by
  induction ops with
  | nil => intro s h; simpa [runTransportOps] using h
  | cons op rest ih =>
      intro s h
      have h1 := runTransportOp_started s op h
      simpa [runTransportOps, List.foldl_cons] using
        ih (runTransportOp s op) h1

theorem runTransportOps_start_mem (ops : List TransportOp) :
    ∀ s : StdioTransportState, TransportOp.start ∈ ops →
      (runTransportOps s ops).started = true := by
  induction ops with
  | nil => intro s h; cases h
  | cons op rest ih =>
      intro s h
      rcases List.mem_cons.mp h with heq | hmem
      · subst heq
        have h1 : (runTransportOp s TransportOp.start).started = true := by
          by_cases hs : s.started = true
          · simp [runTransportOp, transportStart, hs]
          · simp at hs
            simp [runTransportOp, transportStart, hs]
        simpa [runTransportOps, List.foldl_cons] using
          runTransportOps_started rest (runTransportOp s .start) h1
      · simpa [runTransportOps, List.foldl_cons] using
          ih (runTransportOp s op) hmem

/-- Claim C9: a first `start()` on the freshly constructed transport
succeeds, and after any call sequence containing a `start()` (including
sequences that later `close()`), a further `start()` throws
`"StdioTransport already started!"`. -/
theorem transportStart_twice (ops : List TransportOp)
    (h : TransportOp.start ∈ ops) :
    transportStart initStdioTransport =
      Except.ok ⟨true, ""⟩ ∧
    transportStart (runTransportOps initStdioTransport ops) =
      Except.error "StdioTransport already started!" := by
  refine ⟨by simp [transportStart, initStdioTransport], ?_⟩
  have hst := runTransportOps_start_mem ops initStdioTransport h
  simp [transportStart, hst]

theorem transportStart_twice_witness :
    TransportOp.start ∈
      [TransportOp.start, TransportOp.close, TransportOp.close] ∧
    (transportStart initStdioTransport = Except.ok ⟨true, ""⟩ ∧
    transportStart (runTransportOps initStdioTransport
        [TransportOp.start, TransportOp.close, TransportOp.close]) =
      Except.error "StdioTransport already started!") :=
  ⟨by decide,
    transportStart_twice [TransportOp.start, TransportOp.close,
      TransportOp.close] (by decide)⟩

/-! ## Prefetcher lemmas (claim C7) -/

theorem dedupFirstAux_mem (l : List String) :
    ∀ seen x, x ∈ dedupFirstAux seen l → x ∉ seen := by
  induction l with
  | nil => intro seen x h; cases h
  | cons y ys ih =>
      intro seen x h
      by_cases hy : y ∈ seen
      · rw [dedupFirstAux, if_pos hy] at h
        exact ih seen x h
      · rw [dedupFirstAux, if_neg hy] at h
        rcases List.mem_cons.mp h with heq | hmem
        · subst heq; exact hy
        · have := ih (y :: seen) x hmem
          exact fun hc => this (List.mem_cons_of_mem y hc)

theorem dedupFirstAux_nodup (l : List String) :
    ∀ seen, (dedupFirstAux seen l).Nodup := by
  induction l with
  | nil => intro seen; simp [dedupFirstAux]
  | cons y ys ih =>
      intro seen
      by_cases hy : y ∈ seen
      · rw [dedupFirstAux, if_pos hy]; exact ih seen
      · rw [dedupFirstAux, if_neg hy]
        refine List.nodup_cons.mpr ⟨?_, ih (y :: seen)⟩
        intro hc
        exact dedupFirstAux_mem ys (y :: seen) y hc (List.mem_cons_self y seen)

theorem extractTableNamesFromQuery_nodup (q : String) :
    (extractTableNamesFromQuery q).Nodup := by
  unfold extractTableNamesFromQuery
  exact dedupFirstAux_nodup _ []

theorem checkOneTable_snd (fetch : String → Except Err (List NrqlRow))
    (now : Nat) (s : SchemaServiceState) (t : String) :
    (checkOneTable fetch now s t).2 = ! isTableSchemaCached s t now := by
  unfold checkOneTable
  by_cases hc : isTableSchemaCached s t now
  · simp [hc]
  · simp only [Bool.not_eq_true] at hc
    cases hf : fetch t with
    | error e => simp [hc, hf]
    | ok rows =>
        cases rows with
        | nil => simp [hc, hf]
        | cons r rs =>
            cases hk : r.keyset with
            | none => simp [hc, hf, hk]
            | some ks => simp [hc, hf, hk]

theorem checkOneTable_cached_of_other (fetch : String → Except Err (List NrqlRow))
    (now : Nat) (s : SchemaServiceState) (t t' : String) (hne : t' ≠ t) :
    isTableSchemaCached (checkOneTable fetch now s t).1 t' now =
      isTableSchemaCached s t' now := by
  unfold checkOneTable
  by_cases hc : isTableSchemaCached s t now
  · simp [hc]
  · simp only [Bool.not_eq_true] at hc
    cases hf : fetch t with
    | error e => simp [hc, hf]
    | ok rows =>
        cases rows with
        | nil => simp [hc, hf]
        | cons r rs =>
            cases hk : r.keyset with
            | none => simp [hc, hf, hk]
            | some ks =>
                simp only [hc, hf, hk, Bool.false_eq_true, if_false]
                unfold isTableSchemaCached
                rw [show (publishEvent (cacheTableSchema s t ks now)
                    SCHEMA_UPDATED t).schemaCache =
                    (cacheTableSchema s t ks now).schemaCache from rfl]
                rw [show (cacheTableSchema s t ks now).schemaCache =
                    mapSet t ⟨t, ks, now, now + CACHE_EXPIRATION_MS⟩
                      s.schemaCache from rfl]
                rw [mapLookup_mapSet_ne t t' _ s.schemaCache hne]

theorem checkTables_snd (fetch : String → Except Err (List NrqlRow))
    (now : Nat) (ts : List String) :
    ∀ s : SchemaServiceState, ts.Nodup →
      (checkTables fetch now s ts).2 =
        ts.filter (fun t => ! isTableSchemaCached s t now) := by
  induction ts with
  | nil => intro s _; simp [checkTables]
  | cons t rest ih =>
      intro s hnd
      rcases List.nodup_cons.mp hnd with ⟨hnotmem, hnd'⟩
      have hrec := ih (checkOneTable fetch now s t).1 hnd'
      have hcong : rest.filter
          (fun t' => ! isTableSchemaCached (checkOneTable fetch now s t).1 t' now) =
          rest.filter (fun t' => ! isTableSchemaCached s t' now) := by
        refine List.filter_congr ?_
        intro x hx
        have hne : x ≠ t := fun hc => hnotmem (hc ▸ hx)
        rw [checkOneTable_cached_of_other fetch now s t x hne]
      rw [checkTables, hrec, hcong, checkOneTable_snd, List.filter_cons]
      by_cases hc : isTableSchemaCached s t now
      · simp [hc]
      · simp only [Bool.not_eq_true] at hc
        simp [hc]

/-- Claim C7: the prefetcher extracts the distinct `FROM <identifier>`
table names (case-insensitive keyword, first occurrences only, hence
duplicate references cause no second lookup) and issues a remote lookup
exactly for the extracted names that are not freshly cached — in
particular the lookup list is the same for every fetch outcome, so one
table's failure never aborts the remaining tables, and
`checkAndCacheTableSchema` is total, never failing the caller's query.
The sample query triggers exactly one lookup, for `Events`. -/
theorem prefetch_distinct_lookups :
    extractTableNamesFromQuery
        "SELECT count(*) FROM Events WHERE level='error'" = ["Events"] ∧
    extractTableNamesFromQuery
        "SELECT a FROM Events WHERE x IN (SELECT b FROM Events)" =
      ["Events"] ∧
    (∀ q : String, (extractTableNamesFromQuery q).Nodup) ∧
    (∀ (fetch : String → Except Err (List NrqlRow))
        (s : SchemaServiceState) (q : String) (now : Nat),
      (checkAndCacheTableSchema fetch s q now).2 =
        (extractTableNamesFromQuery q).filter
          (fun t => ! isTableSchemaCached s t now)) := by
  refine ⟨by decide, by decide, extractTableNamesFromQuery_nodup, ?_⟩
  intro fetch s q now
  exact checkTables_snd fetch now (extractTableNamesFromQuery q) s
    (extractTableNamesFromQuery_nodup q)

/-! ## Logger buffer lemmas (claims C3, C4) -/

theorem evictLoop_spec (logSize : Nat) (q : List BufferedLogEntry) :
    ∀ size : Nat, size = (q.map calculateLogSize).sum →
      (evictLoop logSize q size).2 =
        ((evictLoop logSize q size).1.map calculateLogSize).sum ∧
      ((evictLoop logSize q size).2 + logSize ≤ MAX_BUFFER_SIZE ∨
        (evictLoop logSize q size).1 = []) ∧
      (evictLoop logSize q size).1 <:+ q := by
  induction q with
  | nil =>
      intro size hwf
      simp [evictLoop, hwf]
  | cons e rest ih =>
      intro size hwf
      by_cases hover : size + logSize > MAX_BUFFER_SIZE
      · have hwf' : size - calculateLogSize e =
            (rest.map calculateLogSize).sum := by
          simp [hwf, List.map_cons, List.sum_cons]
        have := ih (size - calculateLogSize e) hwf'
        rw [evictLoop, if_pos hover]
        exact ⟨this.1, this.2.1,
          this.2.2.trans (List.suffix_cons e rest)⟩
      · rw [evictLoop, if_neg hover]
        refine ⟨hwf, Or.inl ?_, List.suffix_refl _⟩
        omega

theorem addToBuffer_spec (s : McpLoggerState) (e : BufferedLogEntry)
    (hwf : s.bufferSize = (s.bufferQueue.map calculateLogSize).sum) :
    (addToBuffer s e).bufferSize =
      ((addToBuffer s e).bufferQueue.map calculateLogSize).sum ∧
    (calculateLogSize e ≤ MAX_BUFFER_SIZE →
      (addToBuffer s e).bufferSize ≤ MAX_BUFFER_SIZE) ∧
    ∃ q', (addToBuffer s e).bufferQueue = q' ++ [e] ∧
      q' <:+ s.bufferQueue := by
  obtain ⟨h1, h2, h3⟩ :=
    evictLoop_spec (calculateLogSize e) s.bufferQueue s.bufferSize hwf
  refine ⟨?_, ?_, ?_⟩
  · simp [addToBuffer, h1]
  · intro hsmall
    rcases h2 with hle | hemp
    · simpa [addToBuffer] using hle
    · have : (evictLoop (calculateLogSize e) s.bufferQueue
          s.bufferSize).2 = 0 := by
        rw [h1, hemp]; simp
      simp [addToBuffer, this]
      omega
  · exact ⟨_, rfl, h3⟩

theorem logMany_wf_bound (es : List BufferedLogEntry)
    (hsmall : ∀ e ∈ es, calculateLogSize e ≤ MAX_BUFFER_SIZE) :
    ∀ s : McpLoggerState,
      s.bufferSize = (s.bufferQueue.map calculateLogSize).sum →
      s.bufferSize ≤ MAX_BUFFER_SIZE →
      (logMany s es).bufferSize =
          ((logMany s es).bufferQueue.map calculateLogSize).sum ∧
        (logMany s es).bufferSize ≤ MAX_BUFFER_SIZE := by
  induction es with
  | nil => intro s hwf hb; exact ⟨hwf, hb⟩
  | cons e rest ih =>
      intro s hwf hb
      have he : calculateLogSize e ≤ MAX_BUFFER_SIZE :=
        hsmall e (List.mem_cons_self e rest)
      obtain ⟨h1, h2, _⟩ := addToBuffer_spec s e hwf
      have hrest : ∀ x ∈ rest, calculateLogSize x ≤ MAX_BUFFER_SIZE :=
        fun x hx => hsmall x (List.mem_cons_of_mem e hx)
      have := ih hrest (addToBuffer s e) h1 (h2 he)
      simpa [logMany, List.foldl_cons] using this

/-- Claim C3 counterexample: a single log entry whose computed size is
`MAX_BUFFER_SIZE + 1` leaves the buffer above the 4MiB bound — the
eviction loop empties the queue and the entry is still pushed. -/
def oversizedLogEntry : BufferedLogEntry :=
  ⟨"", String.mk (List.replicate (MAX_BUFFER_SIZE + 1) 'a'), [], ""⟩

theorem calculateLogSize_def (e : BufferedLogEntry) :
    calculateLogSize e = e.level.length + e.message.length +
      e.timestamp.length +
      (if e.args.isEmpty then 0 else jsonArgsLen e.args) := rfl

theorem addToBuffer_empty_size (e : BufferedLogEntry) :
    (addToBuffer emptyMcpLoggerState e).bufferSize = calculateLogSize e := by
  simp [addToBuffer, emptyMcpLoggerState, evictLoop]

theorem mcpBuffer_bound_counterexample :
    MAX_BUFFER_SIZE <
      (addToBuffer emptyMcpLoggerState oversizedLogEntry).bufferSize := by
  have hlvl : oversizedLogEntry.level = "" := rfl
  have hts : oversizedLogEntry.timestamp = "" := rfl
  have hargs : oversizedLogEntry.args = ([] : List String) := rfl
  have hlen : oversizedLogEntry.message.length = MAX_BUFFER_SIZE + 1 := by
    simp [oversizedLogEntry, String.length_mk, List.length_replicate]
  have hsize : calculateLogSize oversizedLogEntry = MAX_BUFFER_SIZE + 1 := by
    rw [calculateLogSize_def, hlvl, hts, hargs, hlen, String.length_empty]
    simp only [List.isEmpty_nil, if_true]
    omega
  rw [addToBuffer_empty_size, hsize]
  omega

/-- Claim C3 (amended): provided every logged entry's computed size is at
most `MAX_BUFFER_SIZE`, after each log call with no sink attached the
buffer's total byte size stays within `MAX_BUFFER_SIZE`; eviction removes
oldest entries first (the survivors are a suffix of the old queue) and
the most recently added entry is always retained (it is the last element
of the new queue), the latter two unconditionally. -/
theorem mcpBuffer_bound_amended (es : List BufferedLogEntry) (n : Nat)
    (hsmall : ∀ e ∈ es, calculateLogSize e ≤ MAX_BUFFER_SIZE) :
    (logMany emptyMcpLoggerState (es.take n)).bufferSize ≤
      MAX_BUFFER_SIZE ∧
    ∀ (s : McpLoggerState) (e : BufferedLogEntry),
      (s.bufferSize = (s.bufferQueue.map calculateLogSize).sum) →
      ∃ q', (addToBuffer s e).bufferQueue = q' ++ [e] ∧
        q' <:+ s.bufferQueue := by
  constructor
  · have htake : ∀ e ∈ es.take n, calculateLogSize e ≤ MAX_BUFFER_SIZE :=
      fun e he => hsmall e (List.mem_of_mem_take he)
    exact (logMany_wf_bound (es.take n) htake emptyMcpLoggerState
      (by simp [emptyMcpLoggerState]) (by simp [emptyMcpLoggerState])).2
  · intro s e hwf
    exact (addToBuffer_spec s e hwf).2.2

theorem mcpBuffer_bound_amended_witness :
    (∀ e ∈ ([⟨"info", "hello", [], "t0"⟩] : List BufferedLogEntry),
      calculateLogSize e ≤ MAX_BUFFER_SIZE) ∧
    ((logMany emptyMcpLoggerState
        (([⟨"info", "hello", [], "t0"⟩] : List BufferedLogEntry).take 1)).bufferSize ≤
      MAX_BUFFER_SIZE ∧
    ∀ (s : McpLoggerState) (e : BufferedLogEntry),
      (s.bufferSize = (s.bufferQueue.map calculateLogSize).sum) →
      ∃ q', (addToBuffer s e).bufferQueue = q' ++ [e] ∧
        q' <:+ s.bufferQueue) :=
  ⟨by decide, mcpBuffer_bound_amended [⟨"info", "hello", [], "t0"⟩] 1
    (by decide)⟩

/-! ## Flush semantics (claim C4) -/

def flushEntryA : BufferedLogEntry := ⟨"info", "a", [], "t"⟩

def flushEntryB : BufferedLogEntry := ⟨"info", "b", [], "t"⟩

/-- A sink whose delivery throws a non-`"Not connected"` error on
`flushEntryA` and succeeds on everything else. -/
def failingSink : Sink :=
  fun e => if e = flushEntryA then SendOutcome.failed else SendOutcome.ok

def flushCounterexampleState : McpLoggerState :=
  ⟨some failingSink, [flushEntryA, flushEntryB],
    calculateLogSize flushEntryA + calculateLogSize flushEntryB⟩

/-- Claim C4 counterexample: with the sink failing on the first buffered
entry with an error other than `"Not connected"`, the flush logs the error
but drops nothing and does not continue — both entries (the failing one
included) are still buffered afterwards, where the claim predicts the
first entry dropped and the second delivered. -/
theorem flushBuffer_drop_counterexample :
    (flushBuffer flushCounterexampleState).1.bufferQueue =
      [flushEntryA, flushEntryB] ∧
    (flushBuffer flushCounterexampleState).2 = true := by
  constructor <;>
    simp [flushBuffer, flushCounterexampleState, flushLoop, failingSink]

theorem flushLoop_stops (send : Sink) (post : List BufferedLogEntry)
    (e : BufferedLogEntry) :
    ∀ (pre : List BufferedLogEntry) (size : Nat),
      (∀ x ∈ pre, send x = SendOutcome.ok) →
      send e ≠ SendOutcome.ok →
      (flushLoop send (pre ++ e :: post) size).1 = e :: post ∧
      ((flushLoop send (pre ++ e :: post) size).2.2 = true ↔
        send e = SendOutcome.failed) := by
  intro pre
  induction pre with
  | nil =>
      intro size _ he
      cases hs : send e with
      | ok => exact absurd hs he
      | notConnected =>
          constructor
          · simp [flushLoop, hs]
          · simp [flushLoop, hs]
      | failed =>
          constructor
          · simp [flushLoop, hs]
          · simp [flushLoop, hs]
  | cons x rest ih =>
      intro size hpre he
      have hx : send x = SendOutcome.ok := hpre x (List.mem_cons_self x rest)
      have hrest : ∀ y ∈ rest, send y = SendOutcome.ok :=
        fun y hy => hpre y (List.mem_cons_of_mem x hy)
      have := ih (size - calculateLogSize x) hrest he
      simpa [flushLoop, hx] using this

/-- Claim C4 (amended): when the buffer is flushed (on `attachServer`),
entries are delivered in original order; a delivery failing with the
`"Not connected"` condition stops the flush with that entry and all later
entries kept buffered in order; a delivery failing with any other error is
logged (`console.error`) and likewise stops the flush — the failing entry
is NOT dropped and no further entries are attempted: it and all later
entries stay buffered. -/
theorem flushBuffer_stop_semantics (send : Sink)
    (pre post : List BufferedLogEntry) (e : BufferedLogEntry)
    (s : McpLoggerState)
    (hserver : s.server = some send)
    (hqueue : s.bufferQueue = pre ++ e :: post)
    (hpre : ∀ x ∈ pre, send x = SendOutcome.ok)
    (he : send e ≠ SendOutcome.ok) :
    (flushBuffer s).1.bufferQueue = e :: post ∧
    ((flushBuffer s).2 = true ↔ send e = SendOutcome.failed) := by
  obtain ⟨h1, h2⟩ :=
    flushLoop_stops send post e pre s.bufferSize hpre he
  have hnonempty : s.bufferQueue.isEmpty = false := by
    rw [hqueue]
    cases pre <;> simp
  rw [flushBuffer, hserver]
  simp only [hnonempty, Bool.false_eq_true, if_false]
  rw [hqueue]
  exact ⟨h1, h2⟩

theorem flushBuffer_stop_semantics_witness :
    flushCounterexampleState.server = some failingSink ∧
    flushCounterexampleState.bufferQueue =
      [] ++ flushEntryA :: [flushEntryB] ∧
    (∀ x ∈ ([] : List BufferedLogEntry),
      failingSink x = SendOutcome.ok) ∧
    failingSink flushEntryA ≠ SendOutcome.ok ∧
    ((flushBuffer flushCounterexampleState).1.bufferQueue =
      flushEntryA :: [flushEntryB] ∧
    ((flushBuffer flushCounterexampleState).2 = true ↔
      failingSink flushEntryA = SendOutcome.failed)) :=
  ⟨rfl, rfl, by simp, by decide,
    flushBuffer_stop_semantics failingSink [] [flushEntryB] flushEntryA
      flushCounterexampleState rfl rfl (by simp) (by decide)⟩

/-! ## Pool scheduler lemmas (claim C8) -/

theorem poolReachable_card {α : Type} [DecidableEq α] (K : Nat)
    (items : List α) (s : PoolState α) (h : PoolReachable K items s) :
    s.inFlight.card ≤ K := by
  induction h with
  | refl => simp
  | tail hab hbc ih =>
      cases hbc with
      | start x rest inF fin hlt =>
          simpa [Multiset.card_cons] using hlt
      | finish x pend inF fin hx =>
          have h1 := Multiset.card_erase_le (a := x) (s := inF)
          simp only at ih ⊢
          omega

theorem poolReachable_conservation {α : Type} [DecidableEq α] (K : Nat)
    (items : List α) (s : PoolState α) (h : PoolReachable K items s) :
    (↑s.pending : Multiset α) + s.inFlight + s.finished = ↑items := by
  induction h with
  | refl => simp
  | tail hab hbc ih =>
      cases hbc with
      | start x rest inF fin hlt =>
          show (↑rest : Multiset α) + (x ::ₘ inF) + fin = ↑items
          have e1 : (↑rest : Multiset α) + (x ::ₘ inF) + fin =
              (↑(x :: rest) : Multiset α) + inF + fin := by
            simp [← Multiset.cons_coe, Multiset.cons_add, Multiset.add_cons]
          rw [e1]
          exact ih
      | finish x pend inF fin hx =>
          have e1 : (↑pend : Multiset α) + inF.erase x + (x ::ₘ fin) =
              (↑pend : Multiset α) + (x ::ₘ inF.erase x) + fin := by
            simp [Multiset.cons_add, Multiset.add_cons]
          simp only at ih ⊢
          rw [e1, Multiset.cons_erase hx]
          exact ih

theorem poolDone_finished {α : Type} [DecidableEq α] (K : Nat)
    (items : List α) (s : PoolState α) (h : PoolReachable K items s)
    (hdone : PoolDone s) : s.finished = ↑items := by
  have hc := poolReachable_conservation K items s h
  obtain ⟨hp, hf⟩ := hdone
  rw [hp, hf] at hc
  simpa using hc

theorem poolProgress {α : Type} [DecidableEq α] (K : Nat) (hK : 0 < K) :
    ∀ (n : Nat) (s : PoolState α),
      2 * s.pending.length + s.inFlight.card ≤ n →
      ∃ t, Relation.ReflTransGen (PoolStep K) s t ∧ PoolDone t := by
  intro n
  induction n with
  | zero =>
      intro s hs
      have hlen : s.pending.length = 0 := by omega
      have hcard : s.inFlight.card = 0 := by omega
      exact ⟨s, Relation.ReflTransGen.refl,
        List.length_eq_zero.mp hlen, Multiset.card_eq_zero.mp hcard⟩
  | succ n ih =>
      intro s hs
      obtain ⟨pend, inF, fin⟩ := s
      cases pend with
      | nil =>
          by_cases hf : inF = 0
          · exact ⟨⟨[], inF, fin⟩, Relation.ReflTransGen.refl, rfl, hf⟩
          · obtain ⟨x, hx⟩ := Multiset.exists_mem_of_ne_zero hf
            have hstep : PoolStep K (⟨[], inF, fin⟩ : PoolState α)
                ⟨[], inF.erase x, x ::ₘ fin⟩ :=
              PoolStep.finish x [] inF fin hx
            have hcard := Multiset.card_erase_add_one hx
            have hpos : 0 < inF.card := Multiset.card_pos.mpr hf
            simp only [List.length_nil] at hs
            have hm : 2 * ([] : List α).length + (inF.erase x).card ≤ n := by
              simp only [List.length_nil]
              omega
            obtain ⟨t, ht, htd⟩ := ih ⟨[], inF.erase x, x ::ₘ fin⟩ hm
            exact ⟨t, Relation.ReflTransGen.head hstep ht, htd⟩
      | cons x rest =>
          by_cases hc : inF.card < K
          · have hstep : PoolStep K (⟨x :: rest, inF, fin⟩ : PoolState α)
                ⟨rest, x ::ₘ inF, fin⟩ :=
              PoolStep.start x rest inF fin hc
            simp only [List.length_cons] at hs
            have hm : 2 * rest.length + (x ::ₘ inF).card ≤ n := by
              simp only [Multiset.card_cons]
              omega
            obtain ⟨t, ht, htd⟩ := ih ⟨rest, x ::ₘ inF, fin⟩ hm
            exact ⟨t, Relation.ReflTransGen.head hstep ht, htd⟩
          · have hne : inF ≠ 0 := by
              intro h0
              rw [h0] at hc
              simp at hc
              omega
            obtain ⟨y, hy⟩ := Multiset.exists_mem_of_ne_zero hne
            have hstep : PoolStep K (⟨x :: rest, inF, fin⟩ : PoolState α)
                ⟨x :: rest, inF.erase y, y ::ₘ fin⟩ :=
              PoolStep.finish y (x :: rest) inF fin hy
            have hcard := Multiset.card_erase_add_one hy
            have hpos : 0 < inF.card := Multiset.card_pos.mpr hne
            simp only [List.length_cons] at hs
            have hm : 2 * (x :: rest).length + (inF.erase y).card ≤ n := by
              simp only [List.length_cons]
              omega
            obtain ⟨t, ht, htd⟩ := ih ⟨x :: rest, inF.erase y, y ::ₘ fin⟩ hm
            exact ⟨t, Relation.ReflTransGen.head hstep ht, htd⟩

/-- Claim C8: with the `MAX_CONCURRENCY = 5` limit, every pool state
reachable while processing the input dashboards has at most 5 tasks in
flight and conserves the inputs across pending/in-flight/finished (so
every input is attempted exactly once); when nothing is pending or in
flight, the finished multiset is exactly the input; from any reachable
state a finished run of the whole input remains reachable (the call
resolves after all items are attempted, task failures included, since a
failed task is just a completed one); and a dashboard whose detail fetch
fails contributes an empty result list while the rest of the batch is
unaffected. -/
theorem pool_fanout_contract (items : List Dashboard)
    (s : PoolState Dashboard)
    (g : Dashboard → Except Err DashboardDetails) (d : Dashboard)
    (err : Err) (hreach : PoolReachable MAX_CONCURRENCY items s)
    (hg : g d = .error err) :
    s.inFlight.card ≤ MAX_CONCURRENCY ∧
    (↑s.pending : Multiset Dashboard) + s.inFlight + s.finished =
      ↑items ∧
    (PoolDone s → s.finished = ↑items) ∧
    (∃ t, Relation.ReflTransGen (PoolStep MAX_CONCURRENCY) s t ∧
      PoolDone t ∧ t.finished = ↑items) ∧
    processDashboard g d = [] ∧
    (∀ ds1 ds2 : List Dashboard,
      queryNrqlsByServiceQueries g (ds1 ++ d :: ds2) =
        queryNrqlsByServiceQueries g ds1 ++
          queryNrqlsByServiceQueries g ds2) := by
  have hK : 0 < MAX_CONCURRENCY := by decide
  refine ⟨poolReachable_card _ items s hreach,
    poolReachable_conservation _ items s hreach,
    fun hdone => poolDone_finished _ items s hreach hdone, ?_, ?_, ?_⟩
  · obtain ⟨t, ht, htd⟩ := poolProgress MAX_CONCURRENCY hK
      (2 * s.pending.length + s.inFlight.card) s (le_refl _)
    refine ⟨t, ht, htd, ?_⟩
    exact poolDone_finished _ items t (hreach.trans ht) htd
  · simp [processDashboard, hg]
  · intro ds1 ds2
    simp [queryNrqlsByServiceQueries, processDashboard, hg]

theorem pool_fanout_contract_witness :
    PoolReachable MAX_CONCURRENCY [Dashboard.mk "g1" "n1"]
      (PoolState.mk [Dashboard.mk "g1" "n1"] 0 0) ∧
    (fun _ : Dashboard => (Except.error "boom" :
        Except Err DashboardDetails)) (Dashboard.mk "g1" "n1") =
      Except.error "boom" ∧
    ((PoolState.mk [Dashboard.mk "g1" "n1"] 0 0 :
        PoolState Dashboard).inFlight.card ≤ MAX_CONCURRENCY ∧
    (↑(PoolState.mk [Dashboard.mk "g1" "n1"] 0 0 :
        PoolState Dashboard).pending : Multiset Dashboard) +
      (PoolState.mk [Dashboard.mk "g1" "n1"] 0 0 :
        PoolState Dashboard).inFlight +
      (PoolState.mk [Dashboard.mk "g1" "n1"] 0 0 :
        PoolState Dashboard).finished = ↑[Dashboard.mk "g1" "n1"] ∧
    (PoolDone (PoolState.mk [Dashboard.mk "g1" "n1"] 0 0 :
        PoolState Dashboard) →
      (PoolState.mk [Dashboard.mk "g1" "n1"] 0 0 :
        PoolState Dashboard).finished = ↑[Dashboard.mk "g1" "n1"]) ∧
    (∃ t, Relation.ReflTransGen (PoolStep MAX_CONCURRENCY)
        (PoolState.mk [Dashboard.mk "g1" "n1"] 0 0) t ∧
      PoolDone t ∧ t.finished = ↑[Dashboard.mk "g1" "n1"]) ∧
    processDashboard
      (fun _ : Dashboard => (Except.error "boom" :
        Except Err DashboardDetails)) (Dashboard.mk "g1" "n1") = [] ∧
    (∀ ds1 ds2 : List Dashboard,
      queryNrqlsByServiceQueries
          (fun _ : Dashboard => (Except.error "boom" :
            Except Err DashboardDetails)) (ds1 ++ Dashboard.mk "g1" "n1" :: ds2) =
        queryNrqlsByServiceQueries
            (fun _ : Dashboard => (Except.error "boom" :
              Except Err DashboardDetails)) ds1 ++
          queryNrqlsByServiceQueries
            (fun _ : Dashboard => (Except.error "boom" :
              Except Err DashboardDetails)) ds2)) :=
  ⟨Relation.ReflTransGen.refl, rfl,
    pool_fanout_contract [Dashboard.mk "g1" "n1"]
      (PoolState.mk [Dashboard.mk "g1" "n1"] 0 0)
      (fun _ => Except.error "boom") (Dashboard.mk "g1" "n1") "boom"
      Relation.ReflTransGen.refl rfl⟩
